import Mathlib

/-!
Verification development for the execq core: Task, the round-robin
TaskProviderList, the ExecutionQueue lifecycle (push / delivery /
destruction) and the ExecutionStream start/stop state machine.

The repository ships its test suite and the ExecutionStream declaration
header; the bodies of Task, TaskProviderList, ExecutionQueue and
ExecutionStream are modelled from the specification, and the concrete
scenarios of the test suite are re-checked against the model by
computation.
-/

namespace execq

/-- Modelled from the spec: class `Task` (implementation file absent from
the sources; only the tests use it).  A task holds an optional callable,
identified here by a value of type `α`.  `valid()` holds iff a callable
is present. -/
structure Task (α : Type) where
  callable : Option α
deriving DecidableEq, Repr

/-- Modelled from the spec: `Task::valid()` — true iff the task holds a
callable. -/
def Task.valid {α : Type} (t : Task α) : Bool :=
  t.callable.isSome

/-- Modelled from the spec: a default-constructed (empty) task. -/
def Task.invalid {α : Type} : Task α :=
  ⟨none⟩

/-- Modelled from the spec: a task constructed from a callable. -/
def Task.ofCallable {α : Type} (c : α) : Task α :=
  ⟨some c⟩

/-- Modelled from the spec: invoking a task.  The first component is the
callable that gets run (at most one run per invocation); the second is
the task left behind, which no longer holds a callable. -/
def Task.invoke {α : Type} (t : Task α) : Option α × Task α :=
  (t.callable, ⟨none⟩)

/-- Modelled from the spec: moving from a task.  The first component is
the move target (now holding the callable), the second the moved-from
task, which is left empty. -/
def Task.moveFrom {α : Type} (t : Task α) : Task α × Task α :=
  (⟨t.callable⟩, ⟨none⟩)

/-- Providers are compared by object identity; we model identities as
natural numbers. -/
abbrev ProviderId := Nat

/-- Modelled from the spec: class `TaskProviderList` (implementation file
absent from the sources) — an ordered sequence of registered provider
identities plus the integer round-robin cursor `r`. -/
structure TaskProviderList where
  providers : List ProviderId
  r : Nat
deriving DecidableEq, Repr

/-- A `TaskProviderList` is created empty by the pool. -/
def TaskProviderList.empty : TaskProviderList :=
  ⟨[], 0⟩

/-- Modelled from the spec: `TaskProviderList::add` — append the provider
to the list. -/
def TaskProviderList.add (l : TaskProviderList) (p : ProviderId) : TaskProviderList :=
  { l with providers := l.providers ++ [p] }

/-- Modelled from the spec: `TaskProviderList::remove` — remove the
provider by identity. -/
def TaskProviderList.remove (l : TaskProviderList) (p : ProviderId) : TaskProviderList :=
  { l with providers := l.providers.erase p }

/-- The walk order of one `nextTask` call: the registered providers
starting at the cursor position, wrapping around. -/
def TaskProviderList.rotation (l : TaskProviderList) : List ProviderId :=
  l.providers.drop (l.r % l.providers.length) ++ l.providers.take (l.r % l.providers.length)

/-- Modelled from the spec: the single-pass scan inside
`TaskProviderList::nextTask`.  `f` gives the task each provider returns
when queried on this call.  The result is the served task, the relative
position of the serving provider in the walk (if any), and the providers
queried, in order. -/
def walk {α : Type} (f : ProviderId → Task α) : List ProviderId → Task α × Option Nat × List ProviderId
  | [] => (Task.invalid, none, [])
  | p :: ps =>
    if (f p).valid = true then
      (f p, some 0, [p])
    else
      ((walk f ps).1, Option.map Nat.succ (walk f ps).2.1, p :: (walk f ps).2.2)

/-- The observable outcome of one `nextTask` call: the returned task, the
updated list (same providers, possibly advanced cursor), and the
providers whose own `nextTask` was called, in order. -/
structure NextTaskResult (α : Type) where
  task : Task α
  list : TaskProviderList
  queried : List ProviderId
deriving DecidableEq, Repr

/-- Modelled from the spec: `TaskProviderList::nextTask` — under the list
lock, starting at cursor `r`, walk up to `len` providers in order; if a
provider returns a valid task, advance `r` to the slot after the serving
provider and return the task; if no provider produces a valid task,
return an invalid task. -/
def TaskProviderList.nextTask {α : Type} (l : TaskProviderList) (f : ProviderId → Task α) :
    NextTaskResult α :=
  match walk f l.rotation with
  | (t, some k, q) =>
    ⟨t, ⟨l.providers, (l.r % l.providers.length + k + 1) % l.providers.length⟩, q⟩
  | (t, none, q) => ⟨t, l, q⟩

theorem walk_all_invalid {α : Type} (f : ProviderId → Task α) :
    ∀ ps : List ProviderId, (∀ p ∈ ps, (f p).valid = false) →
      walk f ps = (Task.invalid, none, ps) := by
  intro ps h
  induction ps with
  | nil => simp [walk]
  | cons p ps ih =>
    have hp : (f p).valid = false := h p (List.mem_cons_self p ps)
    have hrest := ih (fun q hq => h q (List.mem_cons_of_mem p hq))
    simp [walk, hp, hrest]

theorem walk_found {α : Type} (f : ProviderId → Task α) :
    ∀ (w₁ : List ProviderId) (p : ProviderId) (w₂ : List ProviderId),
      (∀ q ∈ w₁, (f q).valid = false) → (f p).valid = true →
      walk f (w₁ ++ p :: w₂) = (f p, some w₁.length, w₁ ++ [p]) := by
  intro w₁
  induction w₁ with
  | nil =>
    intro p w₂ _ hp
    simp [walk, hp]
  | cons q w₁ ih =>
    intro p w₂ hw hp
    have hq : (f q).valid = false := hw q (List.mem_cons_self q w₁)
    have hrest := ih p w₂ (fun x hx => hw x (List.mem_cons_of_mem q hx)) hp
    simp [walk, hq, hrest]

theorem walk_queried_subset {α : Type} (f : ProviderId → Task α) :
    ∀ ps : List ProviderId, (walk f ps).2.2 ⊆ ps := by
  intro ps
  induction ps with
  | nil => simp [walk]
  | cons p ps ih =>
    by_cases hp : (f p).valid = true
    · simp [walk, hp]
    · simp only [walk, hp, if_false]
      exact List.cons_subset_cons p ih

theorem rotation_perm (l : TaskProviderList) : l.rotation.Perm l.providers := by
  unfold TaskProviderList.rotation
  have h1 : (l.providers.drop (l.r % l.providers.length) ++
      l.providers.take (l.r % l.providers.length)).Perm
      (l.providers.take (l.r % l.providers.length) ++
       l.providers.drop (l.r % l.providers.length)) := List.perm_append_comm
  have h2 := List.take_append_drop (l.r % l.providers.length) l.providers
  rw [h2] at h1
  exact h1

theorem rotation_subset (l : TaskProviderList) : l.rotation ⊆ l.providers :=
  (rotation_perm l).subset

theorem nextTask_queried_subset {α : Type} (l : TaskProviderList) (f : ProviderId → Task α) :
    (l.nextTask f).queried ⊆ l.providers := by
  have hsub : (walk f l.rotation).2.2 ⊆ l.providers :=
    fun x hx => rotation_subset l (walk_queried_subset f l.rotation hx)
  unfold TaskProviderList.nextTask
  rcases hw : walk f l.rotation with ⟨t, k, q⟩
  rcases k with _ | k
  · simpa [hw] using (by rw [hw] at hsub; exact hsub)
  · simpa [hw] using (by rw [hw] at hsub; exact hsub)

theorem nextTask_eq_of_walk_some {α : Type} (l : TaskProviderList) (f : ProviderId → Task α)
    (t : Task α) (k : Nat) (q : List ProviderId) (h : walk f l.rotation = (t, some k, q)) :
    l.nextTask f =
      ⟨t, ⟨l.providers, (l.r % l.providers.length + k + 1) % l.providers.length⟩, q⟩ := by
  unfold TaskProviderList.nextTask
  rw [h]

theorem nextTask_eq_of_walk_none {α : Type} (l : TaskProviderList) (f : ProviderId → Task α)
    (t : Task α) (q : List ProviderId) (h : walk f l.rotation = (t, none, q)) :
    l.nextTask f = ⟨t, l, q⟩ := by
  unfold TaskProviderList.nextTask
  rw [h]

theorem nextTask_all_invalid {α : Type} (l : TaskProviderList) (f : ProviderId → Task α)
    (h : ∀ p ∈ l.providers, (f p).valid = false) :
    l.nextTask f = ⟨Task.invalid, l, l.rotation⟩ := by
  have hrot : ∀ p ∈ l.rotation, (f p).valid = false :=
    fun p hp => h p (rotation_subset l hp)
  exact nextTask_eq_of_walk_none l f _ _ (walk_all_invalid f l.rotation hrot)

theorem nextTask_empty {α : Type} (l : TaskProviderList) (f : ProviderId → Task α)
    (h : l.providers = []) : l.nextTask f = ⟨Task.invalid, l, []⟩ := by
  have hrot : l.rotation = [] := by
    unfold TaskProviderList.rotation
    rw [h]
    simp
  apply nextTask_eq_of_walk_none
  rw [hrot]
  simp [walk]

/-- The three operations of the queue-delegate contract. -/
inductive DelegateCall
  | registerTaskProvider
  | taskProviderDidReceiveNewTask
  | unregisterTaskProvider
deriving DecidableEq, Repr

/-- Lifecycle phase of an `ExecutionQueue`: live (accepting pushes and
serving tasks), draining (destructor running: unregistered, should-cancel
set, waiting for in-flight executions), dead (destructor returned). -/
inductive QPhase
  | live
  | draining
  | dead
deriving DecidableEq, Repr

/-- Modelled from the spec: the observable state of one `ExecutionQueue`
(implementation file absent from the sources) together with its delegate
call log.  `pushed` records every pushed value in push order, `fifo` the
buffered values not yet selected, `begun` the values whose executee
invocation has begun, in begin order, `running` the multiset of in-flight
invocations, and `discarded` the buffered values dropped by the
destructor. -/
structure QState (α : Type) where
  pushed : List α
  fifo : List α
  begun : List α
  running : List α
  discarded : List α
  shouldCancel : Bool
  phase : QPhase
  log : List DelegateCall
deriving DecidableEq, Repr

/-- Modelled from the spec: on construction the queue registers itself as a
task provider with its delegate. -/
def QState.init (α : Type) : QState α :=
  ⟨[], [], [], [], [], false, QPhase.live, [DelegateCall.registerTaskProvider]⟩

/-- Events of the queue lifecycle.  A `select` event records the value whose
executee invocation begins and the should-cancel value the invocation
observes at that moment. -/
inductive QEvent (α : Type)
  | push (v : α)
  | select (v : α) (observedCancel : Bool)
  | finish (v : α)
  | destroyStart
  | destroyFinish
deriving DecidableEq, Repr

/-- Modelled from the spec: the small-step transitions of one
`ExecutionQueue`.  `push` appends to the FIFO and notifies the delegate;
`select` is a worker popping the FIFO head via `nextTask` and beginning the
executee invocation (only possible while the queue is registered, i.e.
live); `finish` is an in-flight invocation returning; `destroyStart` is the
destructor unregistering from the delegate and setting should-cancel;
`destroyFinish` is the destructor returning, which requires the in-flight
counter to have reached zero and discards the remaining buffered values. -/
inductive QStep {α : Type} [DecidableEq α] : QState α → QEvent α → QState α → Prop
  | push (s : QState α) (v : α) (h : s.phase = QPhase.live) :
      QStep s (QEvent.push v)
        { s with pushed := s.pushed ++ [v], fifo := s.fifo ++ [v],
                 log := s.log ++ [DelegateCall.taskProviderDidReceiveNewTask] }
  | select (s : QState α) (v : α) (rest : List α)
      (hphase : s.phase = QPhase.live) (hfifo : s.fifo = v :: rest) :
      QStep s (QEvent.select v s.shouldCancel)
        { s with fifo := rest, begun := s.begun ++ [v], running := s.running ++ [v] }
  | finish (s : QState α) (v : α) (h : v ∈ s.running) :
      QStep s (QEvent.finish v) { s with running := s.running.erase v }
  | destroyStart (s : QState α) (h : s.phase = QPhase.live) :
      QStep s QEvent.destroyStart
        { s with phase := QPhase.draining, shouldCancel := true,
                 log := s.log ++ [DelegateCall.unregisterTaskProvider] }
  | destroyFinish (s : QState α) (hphase : s.phase = QPhase.draining)
      (hrun : s.running = []) :
      QStep s QEvent.destroyFinish
        { s with phase := QPhase.dead, fifo := [], discarded := s.fifo }

/-- Finite executions of the queue lifecycle. -/
inductive QReach {α : Type} [DecidableEq α] : QState α → List (QEvent α) → QState α → Prop
  | refl (s : QState α) : QReach s [] s
  | step {s s' s'' : QState α} {e : QEvent α} {tr : List (QEvent α)}
      (h1 : QStep s e s') (h2 : QReach s' tr s'') : QReach s (e :: tr) s''

/-- Claim C1: `TaskProviderList.nextTask` performs a single-pass round-robin
pull: starting at the cursor it walks the providers in order, skips every
provider that returns an invalid task, returns the first valid task found,
and advances the cursor past the serving provider.  Consequently, for three
always-valid providers P1, P2, P3 four successive calls serve P1, P2, P3, P1;
and for P1 valid, P2 invalid, P3 valid, two successive calls serve P1's task
then P3's task. -/
theorem C1_nextTask_roundRobin :
    (∀ (α : Type) (l : TaskProviderList) (f : ProviderId → Task α)
        (w₁ : List ProviderId) (p : ProviderId) (w₂ : List ProviderId),
        l.rotation = w₁ ++ p :: w₂ →
        (∀ q ∈ w₁, (f q).valid = false) → (f p).valid = true →
        l.nextTask f =
          ⟨f p, ⟨l.providers, (l.r % l.providers.length + w₁.length + 1) % l.providers.length⟩,
           w₁ ++ [p]⟩)
    ∧ (let fv : ProviderId → Task Nat := fun p => Task.ofCallable p
       let s1 := (⟨[1, 2, 3], 0⟩ : TaskProviderList).nextTask fv
       let s2 := s1.list.nextTask fv
       let s3 := s2.list.nextTask fv
       let s4 := s3.list.nextTask fv
       s1.task = Task.ofCallable 1 ∧ s2.task = Task.ofCallable 2 ∧
         s3.task = Task.ofCallable 3 ∧ s4.task = Task.ofCallable 1)
    ∧ (let g : ProviderId → Task Nat := fun p => if p = 2 then Task.invalid else Task.ofCallable p
       let d1 := (⟨[1, 2, 3], 0⟩ : TaskProviderList).nextTask g
       let d2 := d1.list.nextTask g
       d1.task = Task.ofCallable 1 ∧ d1.queried = [1] ∧
         d2.task = Task.ofCallable 3 ∧ d2.queried = [2, 3]) := by
  refine ⟨?_, by decide, by decide⟩
  intro α l f w₁ p w₂ hrot hinv hp
  apply nextTask_eq_of_walk_some
  rw [hrot]
  exact walk_found f w₁ p w₂ hinv hp

/-- Witness for C1: with providers [1, 2, 3], cursor 0 and every provider
valid, one call serves provider 1 and advances the cursor to 1. -/
theorem C1_nextTask_roundRobin_witness :
    (⟨[1, 2, 3], 0⟩ : TaskProviderList).nextTask (fun p => Task.ofCallable (p : Nat)) =
      ⟨Task.ofCallable 1, ⟨[1, 2, 3], 1⟩, [1]⟩ := by
  have h := C1_nextTask_roundRobin.1 Nat ⟨[1, 2, 3], 0⟩
    (fun p => Task.ofCallable (p : Nat)) [] 1 [2, 3] (by decide) (by decide) (by decide)
  rw [h]
  decide

/-- Claim C7: `TaskProviderList.nextTask` is total and always returns a
task: with no providers, or with every provider returning an invalid task,
it returns an invalid task, and in that walk each registered provider is
queried exactly once. -/
theorem C7_nextTask_total_invalid :
    (∀ (α : Type) (l : TaskProviderList) (f : ProviderId → Task α),
        (∀ p ∈ l.providers, (f p).valid = false) →
        (l.nextTask f).task = Task.invalid ∧ (l.nextTask f).list = l ∧
          (l.nextTask f).queried.Perm l.providers)
    ∧ (∀ (α : Type) (l : TaskProviderList) (f : ProviderId → Task α),
        l.providers = [] → l.nextTask f = ⟨Task.invalid, l, []⟩)
    ∧ (∀ (α : Type) (l : TaskProviderList) (f : ProviderId → Task α),
        l.providers.Nodup → (∀ p ∈ l.providers, (f p).valid = false) →
        ∀ p ∈ l.providers, (l.nextTask f).queried.count p = 1) := by
  refine ⟨?_, ?_, ?_⟩
  · intro α l f h
    rw [nextTask_all_invalid l f h]
    exact ⟨rfl, rfl, rotation_perm l⟩
  · intro α l f h
    exact nextTask_empty l f h
  · intro α l f hnd h p hp
    rw [nextTask_all_invalid l f h]
    rw [(rotation_perm l).count_eq]
    exact List.count_eq_one_of_mem hnd hp

/-- Witness for C7: three providers that all return invalid tasks — the
call returns an invalid task, leaves the list unchanged, queries every
provider, and each provider is queried exactly once. -/
theorem C7_nextTask_total_invalid_witness :
    (((⟨[1, 2, 3], 0⟩ : TaskProviderList).nextTask
        (fun _ => (Task.invalid : Task Nat))).task = Task.invalid ∧
      ((⟨[1, 2, 3], 0⟩ : TaskProviderList).nextTask
        (fun _ => (Task.invalid : Task Nat))).list = ⟨[1, 2, 3], 0⟩ ∧
      (((⟨[1, 2, 3], 0⟩ : TaskProviderList).nextTask
        (fun _ => (Task.invalid : Task Nat))).queried.Perm [1, 2, 3])) ∧
    (((⟨[1, 2, 3], 0⟩ : TaskProviderList).nextTask
        (fun _ => (Task.invalid : Task Nat))).queried.count 2 = 1) :=
  ⟨C7_nextTask_total_invalid.1 Nat ⟨[1, 2, 3], 0⟩ (fun _ => Task.invalid) (by decide),
   C7_nextTask_total_invalid.2.2 Nat ⟨[1, 2, 3], 0⟩ (fun _ => Task.invalid)
     (by decide) (by decide) 2 (by decide)⟩

/-- Claim C8: `TaskProviderList.remove` removes a provider by identity, so
that a subsequent `nextTask` walk queries only the remaining providers and
never the removed one; once every provider is removed, `nextTask` returns an
invalid task without querying any provider.  The concrete add/remove
scenario of the test suite is re-checked by computation. -/
theorem C8_remove_excludes_provider :
    (∀ (α : Type) (l : TaskProviderList) (p : ProviderId) (f : ProviderId → Task α),
        l.providers.Nodup → p ∉ ((l.remove p).nextTask f).queried)
    ∧ (∀ (l : TaskProviderList) (p : ProviderId),
        l.providers.Nodup → p ∉ (l.remove p).providers)
    ∧ (∀ (α : Type) (l : TaskProviderList) (p : ProviderId) (f : ProviderId → Task α),
        (l.remove p).providers = [] → (l.remove p).nextTask f = ⟨Task.invalid, l.remove p, []⟩)
    ∧ (let la : TaskProviderList := (TaskProviderList.empty.add 1).add 2
       let finv : ProviderId → Task Nat := fun _ => Task.invalid
       (la.nextTask finv).queried = [1, 2] ∧ (la.nextTask finv).task.valid = false ∧
         ((la.remove 1).nextTask finv).queried = [2] ∧
         ((la.remove 1).nextTask finv).task.valid = false ∧
         ((la.remove 1).remove 2).nextTask finv = ⟨Task.invalid, ⟨[], 0⟩, []⟩) := by
  refine ⟨?_, ?_, ?_, by decide⟩
  · intro α l p f hnd hmem
    have hq : p ∈ (l.remove p).providers := nextTask_queried_subset (l.remove p) f hmem
    exact hnd.not_mem_erase hq
  · intro l p hnd
    exact hnd.not_mem_erase
  · intro α l p f h
    exact nextTask_empty (l.remove p) f h

/-- Witness for C8: removing provider 1 from the registered list [1, 2]
yields [2], and a subsequent walk never queries provider 1. -/
theorem C8_remove_excludes_provider_witness :
    1 ∉ (((⟨[1, 2], 0⟩ : TaskProviderList).remove 1).nextTask
        (fun _ => (Task.invalid : Task Nat))).queried ∧
      1 ∉ ((⟨[1, 2], 0⟩ : TaskProviderList).remove 1).providers :=
  ⟨C8_remove_excludes_provider.1 Nat ⟨[1, 2], 0⟩ 1 (fun _ => Task.invalid) (by decide),
   C8_remove_excludes_provider.2.1 ⟨[1, 2], 0⟩ 1 (by decide)⟩

/-- Claim C9: a task is valid iff it holds a callable; a default-constructed
task is invalid; a task built from a callable is valid; invoking a valid
task yields its callable to run exactly once (re-invoking the leftover task
yields nothing) and leaves the task invalid; and a task that has been
executed or moved from is invalid. -/
theorem C9_task_validity :
    (∀ (α : Type) (t : Task α), t.valid = true ↔ t.callable.isSome = true)
    ∧ (∀ (α : Type), (Task.mk (none : Option α)).valid = false)
    ∧ (∀ (α : Type) (c : α), (Task.ofCallable c).valid = true)
    ∧ (∀ (α : Type) (t : Task α), t.valid = true →
        t.invoke.1 = t.callable ∧ t.invoke.1.isSome = true ∧
          t.invoke.2.valid = false ∧ t.invoke.2.invoke.1 = none)
    ∧ (∀ (α : Type) (t : Task α),
        t.moveFrom.1.callable = t.callable ∧ t.moveFrom.2.valid = false) := by
  refine ⟨fun α t => Iff.rfl, fun α => rfl, fun α c => rfl, ?_, fun α t => ⟨rfl, rfl⟩⟩
  intro α t h
  exact ⟨rfl, h, rfl, rfl⟩

/-- Witness for C9: the task built from the callable 5 is valid; invoking it
runs that callable once and leaves an invalid task behind. -/
theorem C9_task_validity_witness :
    (Task.ofCallable (5 : Nat)).invoke.1 = (Task.ofCallable (5 : Nat)).callable ∧
      (Task.ofCallable (5 : Nat)).invoke.1.isSome = true ∧
      (Task.ofCallable (5 : Nat)).invoke.2.valid = false ∧
      (Task.ofCallable (5 : Nat)).invoke.2.invoke.1 = none :=
  C9_task_validity.2.2.2.1 Nat (Task.ofCallable 5) (by decide)

/-- The inductive invariant of the queue lifecycle: the pushed values split
into the begun, the discarded and the still-buffered ones, in that order;
should-cancel is false exactly while live; a dead queue has no in-flight
invocation and an empty FIFO; values are discarded only at death; and the
delegate log is one registration, one notification per push, and one
unregistration once destruction has started. -/
def QInv {α : Type} (s : QState α) : Prop :=
  s.pushed = s.begun ++ s.discarded ++ s.fifo
  ∧ (s.phase = QPhase.live → s.shouldCancel = false)
  ∧ (s.phase ≠ QPhase.live → s.shouldCancel = true)
  ∧ (s.phase = QPhase.dead → s.running = [] ∧ s.fifo = [])
  ∧ (s.phase ≠ QPhase.dead → s.discarded = [])
  ∧ s.log = DelegateCall.registerTaskProvider ::
      (List.replicate s.pushed.length DelegateCall.taskProviderDidReceiveNewTask
        ++ if s.phase = QPhase.live then [] else [DelegateCall.unregisterTaskProvider])

theorem qinv_init (α : Type) : QInv (QState.init α) := by
  simp [QInv, QState.init]

theorem qinv_step {α : Type} [DecidableEq α] {s s' : QState α} {e : QEvent α}
    (hstep : QStep s e s') (hinv : QInv s) : QInv s' := by
  obtain ⟨h1, h2, h3, h4, h5, h6⟩ := hinv
  cases hstep with
  | push v h =>
    refine ⟨?_, ?_, ?_, ?_, ?_, ?_⟩
    · simp [h1]
    · simpa using h2
    · simpa using h3
    · simp [h]
    · simpa using h5
    · simp only [h, if_pos rfl] at h6 ⊢
      simp [h6, List.replicate_succ' (s.pushed.length) DelegateCall.taskProviderDidReceiveNewTask]
  | select v rest hphase hfifo =>
    have hdis : s.discarded = [] := h5 (by simp [hphase])
    refine ⟨?_, ?_, ?_, ?_, ?_, ?_⟩
    · simp only
      rw [h1, hfifo, hdis]
      simp
    · simpa using h2
    · simpa using h3
    · simp [hphase]
    · intro _
      exact hdis
    · simpa using h6
  | finish v h =>
    refine ⟨h1, h2, h3, ?_, h5, h6⟩
    intro hd
    obtain ⟨hr, hf⟩ := h4 hd
    simp [hr, hf]
  | destroyStart h =>
    refine ⟨h1, ?_, ?_, ?_, ?_, ?_⟩
    · intro hc
      simp at hc
    · intro _
      rfl
    · intro hd
      simp at hd
    · intro _
      exact h5 (by simp [h])
    · simp only [h, if_pos rfl, List.append_nil] at h6
      simp [h6]
  | destroyFinish hphase hrun =>
    have hdis : s.discarded = [] := h5 (by simp [hphase])
    refine ⟨?_, ?_, ?_, ?_, ?_, ?_⟩
    · simp only
      rw [h1, hdis]
      simp
    · intro hc
      simp at hc
    · intro _
      exact h3 (by simp [hphase])
    · intro _
      exact ⟨hrun, rfl⟩
    · intro hd
      simp at hd
    · simp only [hphase] at h6
      simpa using h6

theorem qinv_reach {α : Type} [DecidableEq α] {s0 s : QState α} {tr : List (QEvent α)}
    (h : QReach s0 tr s) (h0 : QInv s0) : QInv s := by
  induction h with
  | refl s => exact h0
  | step h1 _ ih => exact ih (qinv_step h1 h0)

theorem qinv_of_init_reach {α : Type} [DecidableEq α] {s : QState α} {tr : List (QEvent α)}
    (h : QReach (QState.init α) tr s) : QInv s :=
  qinv_reach h (qinv_init α)

/-- Concrete run used by the witnesses: state after pushing the value 7. -/
def qs1 : QState Nat :=
  ⟨[7], [7], [], [], [], false, QPhase.live,
   [DelegateCall.registerTaskProvider, DelegateCall.taskProviderDidReceiveNewTask]⟩

/-- State after the worker selects the value 7 and the executee invocation
begins. -/
def qs2 : QState Nat :=
  ⟨[7], [], [7], [7], [], false, QPhase.live,
   [DelegateCall.registerTaskProvider, DelegateCall.taskProviderDidReceiveNewTask]⟩

/-- State after the destructor unregisters and sets should-cancel while the
invocation for 7 is still running. -/
def qs3 : QState Nat :=
  ⟨[7], [], [7], [7], [], true, QPhase.draining,
   [DelegateCall.registerTaskProvider, DelegateCall.taskProviderDidReceiveNewTask,
    DelegateCall.unregisterTaskProvider]⟩

/-- State after the in-flight invocation for 7 returns. -/
def qs4 : QState Nat :=
  ⟨[7], [], [7], [], [], true, QPhase.draining,
   [DelegateCall.registerTaskProvider, DelegateCall.taskProviderDidReceiveNewTask,
    DelegateCall.unregisterTaskProvider]⟩

/-- State after the destructor returns. -/
def qsDead : QState Nat :=
  ⟨[7], [], [7], [], [], true, QPhase.dead,
   [DelegateCall.registerTaskProvider, DelegateCall.taskProviderDidReceiveNewTask,
    DelegateCall.unregisterTaskProvider]⟩

theorem step_init_qs1 : QStep (QState.init Nat) (QEvent.push 7) qs1 :=
  QStep.push _ 7 rfl

theorem step_qs1_qs2 : QStep qs1 (QEvent.select 7 false) qs2 :=
  QStep.select _ 7 [] rfl rfl

theorem step_qs2_qs3 : QStep qs2 QEvent.destroyStart qs3 :=
  QStep.destroyStart _ rfl

theorem step_qs3_qs4 : QStep qs3 (QEvent.finish 7) qs4 :=
  QStep.finish _ 7 (by decide)

theorem step_qs4_qsDead : QStep qs4 QEvent.destroyFinish qsDead :=
  QStep.destroyFinish _ rfl rfl

theorem qs1_reach : QReach (QState.init Nat) [QEvent.push 7] qs1 :=
  QReach.step step_init_qs1 (QReach.refl _)

theorem qs2_reach : QReach (QState.init Nat) [QEvent.push 7, QEvent.select 7 false] qs2 :=
  QReach.step step_init_qs1 (QReach.step step_qs1_qs2 (QReach.refl _))

theorem qs3_reach :
    QReach (QState.init Nat) [QEvent.push 7, QEvent.select 7 false, QEvent.destroyStart] qs3 :=
  QReach.step step_init_qs1 (QReach.step step_qs1_qs2 (QReach.step step_qs2_qs3 (QReach.refl _)))

theorem qsDead_reach :
    QReach (QState.init Nat)
      [QEvent.push 7, QEvent.select 7 false, QEvent.destroyStart, QEvent.finish 7,
       QEvent.destroyFinish] qsDead :=
  QReach.step step_init_qs1 (QReach.step step_qs1_qs2 (QReach.step step_qs2_qs3
    (QReach.step step_qs3_qs4 (QReach.step step_qs4_qsDead (QReach.refl _)))))

/-- Claim C2: destroying an `ExecutionQueue` while an executee invocation is
running blocks until it returns (the destructor can only finish once the
in-flight list is empty); a running executee observes should-cancel true
during destruction; and once destruction has returned no invocation is in
progress, none can ever start (no step leaves a dead state), and the
buffered values that were never selected sit in `discarded`, never having
been begun. -/
theorem C2_destruction_blocks_and_cancels :
    (∀ (α : Type) [DecidableEq α] (s s' : QState α),
        QStep s QEvent.destroyFinish s' → s.running = [])
    ∧ (∀ (α : Type) [DecidableEq α] (tr : List (QEvent α)) (s : QState α),
        QReach (QState.init α) tr s → s.phase = QPhase.draining → s.shouldCancel = true)
    ∧ (∀ (α : Type) [DecidableEq α] (tr : List (QEvent α)) (s : QState α),
        QReach (QState.init α) tr s → s.phase = QPhase.dead →
          s.running = [] ∧ s.fifo = [] ∧ s.pushed = s.begun ++ s.discarded ∧
          ∀ (e : QEvent α) (s' : QState α), ¬ QStep s e s') := by
  refine ⟨?_, ?_, ?_⟩
  · intro α _ s s' hstep
    cases hstep with
    | destroyFinish hphase hrun => exact hrun
  · intro α _ tr s hreach hphase
    exact (qinv_of_init_reach hreach).2.2.1 (by simp [hphase])
  · intro α _ tr s hreach hphase
    obtain ⟨h1, _, _, h4, _, _⟩ := qinv_of_init_reach hreach
    obtain ⟨hrun, hfifo⟩ := h4 hphase
    refine ⟨hrun, hfifo, by rw [h1, hfifo, List.append_nil], ?_⟩
    intro e s' hstep
    cases hstep with
    | push _ h => rw [hphase] at h; exact QPhase.noConfusion h
    | select _ _ h _ => rw [hphase] at h; exact QPhase.noConfusion h
    | finish v h => rw [hrun] at h; exact (List.not_mem_nil v) h
    | destroyStart h => rw [hphase] at h; exact QPhase.noConfusion h
    | destroyFinish h _ => rw [hphase] at h; exact QPhase.noConfusion h

/-- Witness for C2: in the concrete run, the executee running across
destruction observes should-cancel true, and the destructor's final step was
only possible with an empty in-flight list. -/
theorem C2_destruction_blocks_and_cancels_witness :
    qs3.shouldCancel = true ∧ qs4.running = [] ∧ qsDead.running = [] :=
  ⟨C2_destruction_blocks_and_cancels.2.1 Nat _ qs3 qs3_reach rfl,
   C2_destruction_blocks_and_cancels.1 Nat qs4 qsDead step_qs4_qsDead,
   (C2_destruction_blocks_and_cancels.2.2 Nat _ qsDead qsDead_reach rfl).1⟩

/-- Claim C3: the pushed values of a queue split exactly into those whose
executee invocation has begun, those discarded by destruction, and those
still buffered — so each push is delivered at most once, and a live queue
whose FIFO has drained has begun exactly the pushed values, in order. -/
theorem C3_each_push_delivered_once :
    (∀ (α : Type) [DecidableEq α] (tr : List (QEvent α)) (s : QState α),
        QReach (QState.init α) tr s → s.pushed = s.begun ++ s.discarded ++ s.fifo)
    ∧ (∀ (α : Type) [DecidableEq α] (tr : List (QEvent α)) (s : QState α),
        QReach (QState.init α) tr s → s.phase = QPhase.live → s.fifo = [] →
          s.begun = s.pushed)
    ∧ (∀ (α : Type) [DecidableEq α] (tr : List (QEvent α)) (s : QState α) (v : α),
        QReach (QState.init α) tr s → s.begun.count v ≤ s.pushed.count v) := by
  refine ⟨?_, ?_, ?_⟩
  · intro α _ tr s hreach
    exact (qinv_of_init_reach hreach).1
  · intro α _ tr s hreach hphase hfifo
    obtain ⟨h1, _, _, _, h5, _⟩ := qinv_of_init_reach hreach
    rw [h1, h5 (by simp [hphase]), hfifo]
    simp
  · intro α _ tr s v hreach
    rw [(qinv_of_init_reach hreach).1]
    simp [List.count_append]

/-- Witness for C3: after pushing 7 and letting the worker select it, the
begun values equal the pushed values. -/
theorem C3_each_push_delivered_once_witness :
    qs2.begun = qs2.pushed ∧ qs2.begun.count 7 ≤ qs2.pushed.count 7 :=
  ⟨C3_each_push_delivered_once.2.1 Nat _ qs2 qs2_reach rfl rfl,
   C3_each_push_delivered_once.2.2 Nat _ qs2 7 qs2_reach⟩

/-- Claim C4: delivery to the executee is FIFO in push order — in every
reachable state the values whose invocation has begun are exactly the first
pushes, in push order, so for two pushes v1 before v2 that are both
delivered, the invocation for v1 begins before the invocation for v2. -/
theorem C4_delivery_fifo :
    ∀ (α : Type) [DecidableEq α] (tr : List (QEvent α)) (s : QState α),
      QReach (QState.init α) tr s →
      s.begun = s.pushed.take s.begun.length ∧
        ∀ (d : α) (i : Nat), i < s.begun.length → s.begun.getD i d = s.pushed.getD i d := by
  intro α _ tr s hreach
  have h1 : s.pushed = s.begun ++ (s.discarded ++ s.fifo) := by
    rw [(qinv_of_init_reach hreach).1, List.append_assoc]
  constructor
  · rw [h1]
    exact (List.take_left s.begun (s.discarded ++ s.fifo)).symm
  · intro d i hi
    rw [h1]
    exact (List.getD_append s.begun (s.discarded ++ s.fifo) d i hi).symm

/-- Witness for C4: in the concrete run the single begun value is the first
pushed value. -/
theorem C4_delivery_fifo_witness :
    qs2.begun = qs2.pushed.take qs2.begun.length ∧ qs2.begun.getD 0 0 = qs2.pushed.getD 0 0 :=
  ⟨(C4_delivery_fifo Nat _ qs2 qs2_reach).1,
   (C4_delivery_fifo Nat _ qs2 qs2_reach).2 0 0 (by decide)⟩

/-- Claim C6: over the lifetime of a queue the delegate log is exactly one
`registerTaskProvider` from construction, then one
`taskProviderDidReceiveNewTask` per push, then one `unregisterTaskProvider`
once destruction has begun — in that order; and each push appends its value
to the FIFO in the same step in which the notification is logged. -/
theorem C6_delegate_call_order :
    (∀ (α : Type) [DecidableEq α] (tr : List (QEvent α)) (s : QState α),
        QReach (QState.init α) tr s →
        s.log = DelegateCall.registerTaskProvider ::
          (List.replicate s.pushed.length DelegateCall.taskProviderDidReceiveNewTask ++
            if s.phase = QPhase.live then [] else [DelegateCall.unregisterTaskProvider]))
    ∧ (∀ (α : Type) [DecidableEq α] (s : QState α) (v : α) (s' : QState α),
        QStep s (QEvent.push v) s' →
          s'.fifo = s.fifo ++ [v] ∧
            s'.log = s.log ++ [DelegateCall.taskProviderDidReceiveNewTask]) := by
  constructor
  · intro α _ tr s hreach
    exact (qinv_of_init_reach hreach).2.2.2.2.2
  · intro α _ s v s' hstep
    cases hstep with
    | push _ h => exact ⟨rfl, rfl⟩

/-- Witness for C6: the completed concrete run logged exactly one
registration, one notification for its one push, and one unregistration, in
that order. -/
theorem C6_delegate_call_order_witness :
    qsDead.log = [DelegateCall.registerTaskProvider,
      DelegateCall.taskProviderDidReceiveNewTask, DelegateCall.unregisterTaskProvider] := by
  have h := C6_delegate_call_order.1 Nat _ qsDead qsDead_reach
  rw [h]
  decide

/-- Claim C10: an executee invocation delivered by a queue that is not being
destroyed observes should-cancel false at the moment the invocation begins,
and should-cancel becomes true only through the destruction sequence. -/
theorem C10_cancel_false_outside_destruction :
    (∀ (α : Type) [DecidableEq α] (tr : List (QEvent α)) (s : QState α) (v : α)
        (ob : Bool) (s' : QState α),
        QReach (QState.init α) tr s → QStep s (QEvent.select v ob) s' → ob = false)
    ∧ (∀ (α : Type) [DecidableEq α] (s : QState α) (e : QEvent α) (s' : QState α),
        QStep s e s' → s'.shouldCancel = true →
          s.shouldCancel = true ∨ e = QEvent.destroyStart) := by
  constructor
  · intro α _ tr s v ob s' hreach hstep
    cases hstep with
    | select _ _ hphase _ => exact (qinv_of_init_reach hreach).2.1 hphase
  · intro α _ s e s' hstep hsc
    cases hstep with
    | push _ _ => exact Or.inl hsc
    | select _ _ _ _ => exact Or.inl hsc
    | finish _ _ => exact Or.inl hsc
    | destroyStart _ => exact Or.inr rfl
    | destroyFinish _ _ => exact Or.inl hsc

/-- Witness for C10: the concrete select step observes should-cancel false,
and the concrete step that turned should-cancel on is `destroyStart`. -/
theorem C10_cancel_false_outside_destruction_witness :
    false = false ∧
      (qs2.shouldCancel = true ∨ QEvent.destroyStart = (QEvent.destroyStart : QEvent Nat)) :=
  ⟨C10_cancel_false_outside_destruction.1 Nat _ qs1 7 false qs2 qs1_reach step_qs1_qs2,
   C10_cancel_false_outside_destruction.2 Nat qs2 QEvent.destroyStart qs3 step_qs2_qs3 rfl⟩

/-- Modelled from the spec: the observable state of class `ExecutionStream`
(only its declaration header is in the sources; the implementation file is
absent).  Mirrors the fields of `ExecutionStream.h`: the `m_started` and
`m_shouldQuit` atomics, registration with the pool's provider list, and the
in-flight iteration count `m_tasksRunningCount`. -/
structure ExecutionStream where
  started : Bool
  shouldQuit : Bool
  registered : Bool
  running : Nat
deriving DecidableEq, Repr

/-- A freshly constructed stream: stopped, not registered, nothing
running. -/
def ExecutionStream.initial : ExecutionStream :=
  ⟨false, false, false, 0⟩

/-- Modelled from the spec: `ExecutionStream::start` — idempotent
transition to started, registering the stream as provider with the pool
(a no-op while already started). -/
def ExecutionStream.start (s : ExecutionStream) : ExecutionStream :=
  if s.started then s else { s with started := true, registered := true }

/-- Modelled from the spec: the first half of `ExecutionStream::stop` —
transition to should-quit (a no-op while the stream is stopped). -/
def ExecutionStream.stopSignal (s : ExecutionStream) : ExecutionStream :=
  if s.started then { s with shouldQuit := true } else s

/-- Modelled from the spec: `ExecutionStream::nextTask` — if should-quit is
set or the stream is not started, return an invalid task; otherwise a valid
task that runs one iteration of the executee. -/
def streamNextTask (s : ExecutionStream) : Task Unit :=
  if s.shouldQuit || !s.started then Task.invalid else Task.ofCallable ()

/-- Events of the stream lifecycle: the public `start`, the two halves of
the blocking `stop` (setting should-quit, then — once the in-flight count
has drained — unregistering and returning), one iteration of the executee
beginning, and one iteration finishing. -/
inductive SEvent
  | start
  | stopSignal
  | stopDone
  | iterBegin
  | iterEnd
deriving DecidableEq, Repr

/-- Modelled from the spec: the small-step transitions of one
`ExecutionStream`.  An iteration can begin only while the stream is
registered with the pool and `streamNextTask` yields a valid task; `stop`
can return only once should-quit is set and all in-flight iterations have
finished, and it unregisters the stream, leaving it stopped. -/
inductive SStep : ExecutionStream → SEvent → ExecutionStream → Prop
  | start (s : ExecutionStream) : SStep s SEvent.start s.start
  | stopSignal (s : ExecutionStream) : SStep s SEvent.stopSignal s.stopSignal
  | stopDone (s : ExecutionStream) (h1 : s.shouldQuit = true) (h2 : s.running = 0) :
      SStep s SEvent.stopDone { s with registered := false, started := false }
  | iterBegin (s : ExecutionStream) (h1 : s.registered = true)
      (h2 : (streamNextTask s).valid = true) :
      SStep s SEvent.iterBegin { s with running := s.running + 1 }
  | iterEnd (s : ExecutionStream) (h : 0 < s.running) :
      SStep s SEvent.iterEnd { s with running := s.running - 1 }

/-- Finite executions of the stream lifecycle. -/
inductive SReach : ExecutionStream → List SEvent → ExecutionStream → Prop
  | refl (s : ExecutionStream) : SReach s [] s
  | step {s s' s'' : ExecutionStream} {e : SEvent} {tr : List SEvent}
      (h1 : SStep s e s') (h2 : SReach s' tr s'') : SReach s (e :: tr) s''

theorem sstep_shouldQuit_persists {s s' : ExecutionStream} {e : SEvent}
    (hstep : SStep s e s') (h : s.shouldQuit = true) : s'.shouldQuit = true := by
  cases hstep with
  | start =>
    unfold ExecutionStream.start
    split
    · exact h
    · exact h
  | stopSignal =>
    unfold ExecutionStream.stopSignal
    split
    · rfl
    · exact h
  | stopDone h1 h2 => exact h
  | iterBegin h1 h2 => exact h
  | iterEnd hr => exact h

/-- Claim C5: after `stop()` has taken effect no further invocation of the
stream executee ever begins — once should-quit is set it stays set, the
stream's `nextTask` is invalid, and no trace from such a state contains an
iteration beginning; `stop` returns only after the in-flight count drained
and it unregisters the stream; and `start` while running and `stop` while
stopped are no-ops. -/
theorem C5_stop_final_and_idempotent :
    (∀ (s : ExecutionStream) (tr : List SEvent) (s' : ExecutionStream),
        SReach s tr s' → s.shouldQuit = true → SEvent.iterBegin ∉ tr)
    ∧ (∀ s : ExecutionStream, s.shouldQuit = true → streamNextTask s = Task.invalid)
    ∧ (∀ s : ExecutionStream, s.started = true → (s.stopSignal).shouldQuit = true)
    ∧ (∀ (s s' : ExecutionStream), SStep s SEvent.stopDone s' →
        s.running = 0 ∧ s'.registered = false ∧ s'.started = false)
    ∧ (∀ s : ExecutionStream, s.started = true → s.start = s)
    ∧ (∀ s : ExecutionStream, s.started = false → s.stopSignal = s) := by
  refine ⟨?_, ?_, ?_, ?_, ?_, ?_⟩
  · intro s tr s' hreach
    induction hreach with
    | refl s => intro _ hmem; exact (List.not_mem_nil _) hmem
    | step h1 h2 ih =>
      intro hq hmem
      rcases List.mem_cons.mp hmem with heq | hmem'
      · subst heq
        cases h1 with
        | iterBegin hreg hvalid =>
          unfold streamNextTask at hvalid
          rw [if_pos (by simp [hq])] at hvalid
          exact Bool.noConfusion hvalid
      · exact ih (sstep_shouldQuit_persists h1 hq) hmem'
  · intro s hq
    unfold streamNextTask
    rw [if_pos (by simp [hq])]
  · intro s hs
    unfold ExecutionStream.stopSignal
    rw [if_pos hs]
  · intro s s' hstep
    cases hstep with
    | stopDone h1 h2 => exact ⟨h2, rfl, rfl⟩
  · intro s hs
    unfold ExecutionStream.start
    rw [if_pos hs]
  · intro s hs
    unfold ExecutionStream.stopSignal
    rw [hs]
    simp

/-- Witness for C5: a concrete started-then-stopped stream — no iteration
begins in the trace that completes the stop, `nextTask` is invalid
afterwards, and repeating `start` or `stop` in the respective states is a
no-op. -/
theorem C5_stop_final_and_idempotent_witness :
    SEvent.iterBegin ∉ [SEvent.stopDone] ∧
      streamNextTask ⟨true, true, true, 0⟩ = Task.invalid ∧
      (ExecutionStream.stopSignal ⟨true, false, true, 0⟩).shouldQuit = true ∧
      ExecutionStream.start ⟨true, false, true, 1⟩ = ⟨true, false, true, 1⟩ ∧
      ExecutionStream.stopSignal ⟨false, true, false, 0⟩ = ⟨false, true, false, 0⟩ :=
  ⟨C5_stop_final_and_idempotent.1 ⟨true, true, true, 0⟩ [SEvent.stopDone] ⟨false, true, false, 0⟩
      (SReach.step (SStep.stopDone _ rfl rfl) (SReach.refl _)) rfl,
   C5_stop_final_and_idempotent.2.1 ⟨true, true, true, 0⟩ rfl,
   C5_stop_final_and_idempotent.2.2.1 ⟨true, false, true, 0⟩ rfl,
   C5_stop_final_and_idempotent.2.2.2.2.1 ⟨true, false, true, 1⟩ rfl,
   C5_stop_final_and_idempotent.2.2.2.2.2 ⟨false, true, false, 0⟩ rfl⟩

end execq

